import Mathlib

/-!
Verification of the ISO-NE ingestion pipeline core.

Shallow embedding conventions:
* JSON payloads are modelled by the mutual inductive `JVal`/`JObj`/`JArr`
  (Python dicts preserve insertion order and have unique keys; `JObj.lookup`
  returns the first binding).
* Timestamps are modelled at minute resolution as integers (minutes since an
  epoch).  `pd.to_datetime(v, utc=False, errors="coerce")` is modelled by
  `toDatetime`: a date-like string is embedded as `JVal.timestr text wall off`
  carrying its parse result (wall-clock minutes plus an optional explicit
  UTC-offset in minutes), a number parses as a naive epoch value, and anything
  else coerces to NaT (`none`).  An aware timestamp `(w, some o)` denotes the
  UTC instant `w - o`.
* Python `float(x)` is modelled by `pyFloat` on integral values (the claims do
  not depend on fractional arithmetic); `str(x)` by `pyStr`, where the exact
  repr text of containers is abstracted to a non-numeric placeholder.
* DataFrames are lists of records; `df.drop_duplicates(subset=key_cols)`
  (pandas default `keep="first"`, NaN keys compare equal) is `dedupKeys`;
  `df.sort_values(...)` is the deterministic stable sort `sortLe` (pandas does
  not fix the order of ties; the claims are about partition content, which is
  unaffected).  CSV write-then-read round-trips are treated as the identity.
* Raising `ValueError` after dumping the payload to a debug artifact is
  modelled by `Except.error payload`: the error value is the artifact content.
-/

mutual
/-- JSON-like payload values (Python objects after `resp.json()`). -/
inductive JVal where
  | obj : JObj → JVal
  | arr : JArr → JVal
  | str : String → JVal
  | timestr : String → Int → Option Int → JVal
  | num : Int → JVal
  | jbool : Bool → JVal
  | null : JVal

inductive JObj where
  | nil : JObj
  | cons : String → JVal → JObj → JObj

inductive JArr where
  | anil : JArr
  | acons : JVal → JArr → JArr
end

/-- First binding for a key in a Python dict. -/
def JObj.lookup : JObj → String → Option JVal
  | .nil, _ => none
  | .cons k v rest, key => if k = key then some v else rest.lookup key

/-- Python `s.strip()` (kernel-reducible character-list implementation). -/
def pyStrip (s : String) : String :=
  ⟨((s.data.dropWhile Char.isWhitespace).reverse.dropWhile Char.isWhitespace).reverse⟩

/-- Python `s.isdigit()` on a stripped string: nonempty and all digits. -/
def isDigits (s : String) : Bool := !s.data.isEmpty && s.data.all Char.isDigit

/-- Python `s.upper()` (kernel-reducible). -/
def upperStr (s : String) : String := ⟨s.data.map Char.toUpper⟩

/-- Numeric value of a digit string. -/
def digitsVal (l : List Char) : Nat := l.foldl (fun n c => n * 10 + (c.toNat - 48)) 0

/-- Python truthiness of a payload value (`if d[k]:`). -/
def truthy : JVal → Bool
  | .obj .nil => false
  | .obj _ => true
  | .arr .anil => false
  | .arr _ => true
  | .str s => !s.data.isEmpty
  | .timestr s _ _ => !s.data.isEmpty
  | .num n => n != 0
  | .jbool b => b
  | .null => false

/-- Python `v not in (None, "")`. -/
def notNoneEmpty : JVal → Bool
  | .null => false
  | .str s => !s.data.isEmpty
  | .timestr s _ _ => !s.data.isEmpty
  | _ => true

/-- `pd.to_datetime(v, utc=False, errors="coerce")`: wall-clock minutes plus
optional explicit offset; `none` is NaT. -/
def toDatetime : JVal → Option (Int × Option Int)
  | .timestr _ w o => some (w, o)
  | .num n => some (n, none)
  | _ => none

/-- The UTC timestamp derivation used by both normalizers:
`ts.tz_convert("UTC") if ts.tzinfo else ts.tz_localize("UTC")` (NaT stays NaT).
An aware value `(w, some o)` is the instant `w - o`; a naive value keeps its
wall clock unchanged. -/
def deriveUtc : Option (Int × Option Int) → Option Int
  | none => none
  | some (w, some o) => some (w - o)
  | some (w, none) => some w

/-- Integer-literal string parsing used to model Python `float(s)` on the
string inputs the claims exercise. -/
def strNum? (s : String) : Option Int :=
  let t := pyStrip s
  if isDigits t then some (Int.ofNat (digitsVal t.data)) else none

/-- Python `float(x)` under `try/except` (failure ⇒ `none`). -/
def pyFloat : JVal → Option Int
  | .num n => some n
  | .jbool b => some (if b then 1 else 0)
  | .str s => strNum? s
  | .timestr s _ _ => strNum? s
  | _ => none

/-- Python `str(x)`.  Container reprs are abstracted to fixed non-numeric
placeholders (their exact text is never relied on by the program's logic). -/
def pyStr : JVal → String
  | .str s => s
  | .timestr s _ _ => s
  | .num n => toString n
  | .jbool b => if b then "True" else "False"
  | .null => "None"
  | .obj _ => "OBJECTREPR"
  | .arr _ => "ARRAYREPR"

/-- `for k in keys: if k in d and d[k]: return d[k]` (system extract loops). -/
def firstTruthyKey (d : JObj) : List String → Option JVal
  | [] => none
  | k :: ks =>
    match d.lookup k with
    | some v => if truthy v then some v else firstTruthyKey d ks
    | none => firstTruthyKey d ks

/-- `for k in keys: if k in d and d[k] not in (None, ""): return d[k]`. -/
def firstNotNoneKey (d : JObj) : List String → Option JVal
  | [] => none
  | k :: ks =>
    match d.lookup k with
    | some v => if notNoneEmpty v then some v else firstNotNoneKey d ks
    | none => firstNotNoneKey d ks

/-! ## System normalizer (fetch_isone_fivemin_load.py) -/

def sysTimeKeys : List String := ["BeginDate", "BeginDateTime", "BeginDateUTC", "BeginDatetime"]

def sysValueKeys : List String := ["LoadMw", "LoadMW", "Load", "Value"]

def sysLocKeys : List String := ["Location", "Loc", "Zone", "LocName"]

def textHolderKeys : List String :=
  ["#text", "$", "text", "_text", "_value", "value", "name", "LocName", "LocShortName"]

/-- A canonical system record (columns of the system DataFrame). -/
structure SysRow where
  ts_utc : Option Int
  ts_local : Option (Int × Option Int)
  location : String
  load_mw : Option Int
  is_system : Bool
deriving DecidableEq

def extract_time (d : JObj) : Option JVal := firstTruthyKey d sysTimeKeys

def extract_val (d : JObj) : Option JVal := firstNotNoneKey d sysValueKeys

/-- Text-holder unwrap loop in `extract_loc`:
`for tk in (...): if tk in v and isinstance(v[tk], str) and v[tk].strip(): ...`. -/
def firstStrHolder (o : JObj) : List String → Option String
  | [] => none
  | tk :: tks =>
    match o.lookup tk with
    | some (.str s) =>
      if !(pyStrip s).data.isEmpty then some (pyStrip s) else firstStrHolder o tks
    | some (.timestr s _ _) =>
      if !(pyStrip s).data.isEmpty then some (pyStrip s) else firstStrHolder o tks
    | _ => firstStrHolder o tks

/-- `for tk, tv in v.items(): if isinstance(tv, str) and tv.strip(): ...`. -/
def firstStringyMember : JObj → Option String
  | .nil => none
  | .cons _ v rest =>
    match v with
    | .str s =>
      if !(pyStrip s).data.isEmpty then some (pyStrip s) else firstStringyMember rest
    | .timestr s _ _ =>
      if !(pyStrip s).data.isEmpty then some (pyStrip s) else firstStringyMember rest
    | _ => firstStringyMember rest

/-- Dict branch of `extract_loc`. -/
def unwrapLocDict (o : JObj) : String :=
  match firstStrHolder o textHolderKeys with
  | some s => s
  | none =>
    match firstStringyMember o with
    | some s => s
    | none => pyStr (.obj o)

def extractLocGo (d : JObj) : List String → Option String
  | [] => none
  | k :: ks =>
    match d.lookup k with
    | some v =>
      if truthy v then
        some (match v with
              | .obj o => unwrapLocDict o
              | _ => pyStr v)
      else extractLocGo d ks
    | none => extractLocGo d ks

/-- `extract_loc`: explicit location if present, else the system default. -/
def extract_loc (d : JObj) : String := (extractLocGo d sysLocKeys).getD "ISONE"

def sysSystemNames : List String := ["ISONE", "NEPOOL", "NEWENGLAND", "NE"]

/-- One fast-path record (`for r in payload["FiveMinSystemLoad"]` loop body). -/
def sysFastRec (d : JObj) : Option SysRow :=
  match extract_time d, extract_val d with
  | some tval, some lval =>
    let tsl := toDatetime tval
    some { ts_utc := deriveUtc tsl, ts_local := tsl, location := "ISONE",
           load_mw := pyFloat lval, is_system := true }
  | _, _ => none

/-- The record the recursive walk emits at a dict node (`walk` dict branch). -/
def sysWalkRec (d : JObj) : Option SysRow :=
  match extract_time d, extract_val d with
  | some tval, some lval =>
    let tsl := toDatetime tval
    let loc0 := extract_loc d
    let loc := if loc0.data.isEmpty then "ISONE" else loc0
    some { ts_utc := deriveUtc tsl, ts_local := tsl, location := loc,
           load_mw := pyFloat lval,
           is_system := decide (upperStr loc ∈ sysSystemNames) }
  | _, _ => none

/-- Fast path over the `"FiveMinSystemLoad"` list (non-dict entries skipped). -/
def fastList : JArr → List SysRow
  | .anil => []
  | .acons (.obj d) rest => (sysFastRec d).toList ++ fastList rest
  | .acons _ rest => fastList rest

/-- The fast path: fires iff the payload is a dict whose key
`"FiveMinSystemLoad"` holds a list. -/
def fastPath (payload : JVal) : List SysRow :=
  match payload with
  | .obj o =>
    match o.lookup "FiveMinSystemLoad" with
    | some (.arr entries) => fastList entries
    | _ => []
  | _ => []

mutual
/-- Recursive fallback `walk` of the system normalizer. -/
def sysWalk : JVal → List SysRow
  | .obj o => (sysWalkRec o).toList ++ sysWalkObj o
  | .arr a => sysWalkArr a
  | .str _ => []
  | .timestr _ _ _ => []
  | .num _ => []
  | .jbool _ => []
  | .null => []

def sysWalkObj : JObj → List SysRow
  | .nil => []
  | .cons _ v rest => sysWalk v ++ sysWalkObj rest

def sysWalkArr : JArr → List SysRow
  | .anil => []
  | .acons v rest => sysWalk v ++ sysWalkArr rest
end

/-- Rows extracted by the system normalizer before the emptiness check:
the fast path, with the walk as fallback when it produced nothing. -/
def sysRows (payload : JVal) : List SysRow :=
  let fast := fastPath payload
  if fast.isEmpty then sysWalk payload else fast

/-- Stable insertion used to model `sort_values` deterministically. -/
def insertLe (le : α → α → Bool) (x : α) : List α → List α
  | [] => [x]
  | y :: ys => if le x y then x :: y :: ys else y :: insertLe le x ys

/-- Stable sort used to model `sort_values` deterministically. -/
def sortLe (le : α → α → Bool) : List α → List α
  | [] => []
  | x :: xs => insertLe le x (sortLe le xs)

/-- Comparison on nullable timestamps: NaT sorts last (`na_position="last"`). -/
def leOptInt : Option Int → Option Int → Bool
  | none, none => true
  | none, some _ => false
  | some _, none => true
  | some a, some b => a ≤ b

def leOptStr : Option String → Option String → Bool
  | none, none => true
  | none, some _ => false
  | some _, none => true
  | some a, some b => !decide (b < a)

/-- `sort_values(["ts_utc", "location"])`. -/
def sysLe (a b : SysRow) : Bool :=
  if a.ts_utc = b.ts_utc then !decide (b.location < a.location)
  else leOptInt a.ts_utc b.ts_utc

/-- `normalize_payload` of the system fetcher: extract rows, fail on an empty
extraction carrying the payload (the debug artifact), else sort. -/
def sysNormalize (payload : JVal) : Except JVal (List SysRow) :=
  let rows := sysRows payload
  if rows.isEmpty then .error payload else .ok (sortLe sysLe rows)

/-! ## Zonal normalizer (fetch_isone_fivemin_zonal_load.py) -/

def zTimeKeys : List String :=
  ["interval_begin_date", "BeginDate", "BeginDateTime", "BeginDateUTC", "BeginDatetime", "StartTime"]

def zZoneIdKeys : List String :=
  ["load_zone_id", "LoadZone", "LoadZoneId", "LoadZoneID", "ZoneID", "ZoneId"]

def zZoneNmKeys : List String :=
  ["load_zone_name", "Zone", "LocName", "Location", "LoadZoneName"]

def zValueKeys : List String :=
  ["estimated_load_mw", "LoadMw", "LoadMW", "Load", "Value", "estimated_zonal_load_mw"]

/-- Zonal `first_key` uses the `not in (None, "")` test. -/
def first_key (d : JObj) (keys : List String) : Option JVal := firstNotNoneKey d keys

/-- A canonical zonal record (columns of the zonal DataFrame). -/
structure ZoneRow where
  ts_utc : Option Int
  ts_local : Option (Int × Option Int)
  zone_id : Option String
  zone_name : Option String
  load_mw : Option Int
deriving DecidableEq

/-- The static id → name table `ZONE_NAME_BY_ID`. -/
def zoneTable : List (String × String) :=
  [("4001", "ME"), ("4002", "NH"), ("4003", "VT"), ("4004", "CT"), ("4005", "RI"),
   ("4006", "SEMA"), ("4007", "WCMA"), ("4008", "NEMA/Boston"), ("4000", "HUB")]

def zoneNameById (i : String) : Option String := zoneTable.lookup i

/-- `REV_BY_NAME = {v.upper(): k for k, v in ZONE_NAME_BY_ID.items()}`. -/
def revByName (n : String) : Option String :=
  (zoneTable.map (fun p => (upperStr p.2, p.1))).lookup n

/-- `clean_zone_name` (non-None input): strip, drop a leading `.Z.`. -/
def clean_zone_name (z : JVal) : String :=
  let s := pyStrip (pyStr z)
  match s.data with
  | '.' :: 'Z' :: '.' :: rest => ⟨rest⟩
  | _ => s

/-- Zone-id coercion: numbers via `str(int(zid))` (bool is an int in Python);
strings kept only when they strip to digits. -/
def zidCoerce : Option JVal → Option String
  | some (.num n) => some (toString n)
  | some (.jbool b) => some (if b then "1" else "0")
  | some (.str s) =>
    let t := pyStrip s
    if t.data.isEmpty then none else if isDigits t then some t else none
  | some (.timestr s _ _) =>
    let t := pyStrip s
    if t.data.isEmpty then none else if isDigits t then some t else none
  | _ => none

/-- The id/name resolution of the zonal walk: coerce the raw id, clean the raw
name, then backfill each side from the static table exactly as the source does
(the id backfill runs first and its result feeds the name backfill). -/
def zoneIdName (zid znm : Option JVal) : Option String × Option String :=
  let zid1 := zidCoerce zid
  let znm1 := znm.map clean_zone_name
  let zid2 :=
    match zid1, znm1 with
    | none, some nm => revByName (upperStr nm)
    | _, _ => zid1
  let znm2 :=
    match znm1, zid2 with
    | none, some z => zoneNameById z
    | _, _ => znm1
  (zid2, znm2)

/-- The record the zonal walk emits at a dict node. -/
def zoneRecOfDict (d : JObj) : Option ZoneRow :=
  match first_key d zTimeKeys, first_key d zValueKeys with
  | some tv, some lv =>
    let zid := first_key d zZoneIdKeys
    let znm := first_key d zZoneNmKeys
    if zid.isSome || znm.isSome then
      let tsl := toDatetime tv
      let zn := zoneIdName zid znm
      some { ts_utc := deriveUtc tsl, ts_local := tsl,
             zone_id := zn.1, zone_name := zn.2, load_mw := pyFloat lv }
    else none
  | _, _ => none

mutual
/-- The zonal normalizer's recursive `walk`. -/
def zonalWalk : JVal → List ZoneRow
  | .obj o => (zoneRecOfDict o).toList ++ zonalWalkObj o
  | .arr a => zonalWalkArr a
  | .str _ => []
  | .timestr _ _ _ => []
  | .num _ => []
  | .jbool _ => []
  | .null => []

def zonalWalkObj : JObj → List ZoneRow
  | .nil => []
  | .cons _ v rest => zonalWalk v ++ zonalWalkObj rest

def zonalWalkArr : JArr → List ZoneRow
  | .anil => []
  | .acons v rest => zonalWalk v ++ zonalWalkArr rest
end

/-- Final tidy `df["zone_name"] = df["zone_name"].fillna(df["zone_id"])`. -/
def zoneTidy (r : ZoneRow) : ZoneRow :=
  { r with zone_name := match r.zone_name with | none => r.zone_id | some s => some s }

/-- `sort_values(["ts_utc", "zone_id", "zone_name"])`. -/
def zLe (a b : ZoneRow) : Bool :=
  if a.ts_utc = b.ts_utc then
    if a.zone_id = b.zone_id then leOptStr a.zone_name b.zone_name
    else leOptStr a.zone_id b.zone_id
  else leOptInt a.ts_utc b.ts_utc

/-- `normalize_payload` of the zonal fetcher. -/
def zonalNormalize (payload : JVal) : Except JVal (List ZoneRow) :=
  let rows := zonalWalk payload
  if rows.isEmpty then .error payload
  else .ok (sortLe zLe (rows.map zoneTidy))

/-! ## History store (poll_isone_to_history.py) -/

/-- `drop_duplicates(subset=key_cols)` with pandas' default `keep="first"`,
written with an explicit seen-keys accumulator. -/
def dedupKeys [DecidableEq κ] (key : α → κ) : List κ → List α → List α
  | _, [] => []
  | seen, x :: xs =>
    if key x ∈ seen then dedupKeys key seen xs
    else x :: dedupKeys key (key x :: seen) xs

/-- `_append_idempotent`: concat old and new rows, de-duplicate on the key
columns (first, i.e. existing, row kept), sort by `ts_utc`, and return the new
partition content together with `after - len(df_old)`. -/
def appendIdem [DecidableEq κ] (key : α → κ) (ts : α → Option Int)
    (dfOld dfNew : List α) : List α × Int :=
  let dfAll := dfOld ++ dfNew
  let dd := dedupKeys key [] dfAll
  (sortLe (fun a b => leOptInt (ts a) (ts b)) dd, (dd.length : Int) - (dfOld.length : Int))

/-- Identity key of the system dataset: `(ts_utc, location)`. -/
def sysKey (r : SysRow) : Option Int × String := (r.ts_utc, r.location)

/-- Identity key of the zonal dataset: `(ts_utc, zone_id)`. -/
def zoneKey (r : ZoneRow) : Option Int × Option String := (r.ts_utc, r.zone_id)

/-- UTC calendar day of a timestamp (minutes since epoch, floor division). -/
def dateOfTs (t : Option Int) : Option Int := t.map (fun m => m.fdiv 1440)

/-- The rows of a batch falling on one UTC calendar day. -/
def dayRows (ts : α → Option Int) (df : List α) (d : Option Int) : List α :=
  df.filter (fun r => decide (dateOfTs (ts r) = d))

/-- The distinct UTC dates present in a batch (`_utc_dates_in_df`). -/
def datesOf (ts : α → Option Int) (df : List α) : List (Option Int) :=
  dedupKeys (fun d => d) [] (df.map (fun r => dateOfTs (ts r)))

/-- Per-date loop of `write_history_system` / `write_history_zonal`: append
each day's slice to its partition and record the rows added. -/
def writeHistoryGo [DecidableEq κ] (key : α → κ) (ts : α → Option Int) (df : List α) :
    List (Option Int) → (Option Int → List α) → (Option Int → List α) × List (Option Int × Int)
  | [], store => (store, [])
  | d :: ds, store =>
    let res := appendIdem key ts (store d) (dayRows ts df d)
    let store' := fun d' => if d' = d then res.1 else store d'
    let rest := writeHistoryGo key ts df ds store'
    (rest.1, (d, res.2) :: rest.2)

/-- `write_history_*`: split the batch by UTC date and append idempotently,
returning the updated partition store and the per-date added-row report. -/
def writeHistory [DecidableEq κ] (key : α → κ) (ts : α → Option Int)
    (store : Option Int → List α) (df : List α) :
    (Option Int → List α) × List (Option Int × Int) :=
  writeHistoryGo key ts df (datesOf ts df) store

/-- A sequence of `_append_idempotent` calls against one partition. -/
def applyBatches [DecidableEq κ] (key : α → κ) (ts : α → Option Int)
    (s : List α) : List (List α) → List α
  | [] => s
  | b :: bs => applyBatches key ts (appendIdem key ts s b).1 bs

/-! ## Concrete payloads and records used by counterexamples and witnesses -/

def cr1 : SysRow := ⟨some 0, some (0, none), "ISONE", some 100, true⟩

def cr2 : SysRow := ⟨some 0, some (0, none), "ISONE", some 200, true⟩

def cr3 : SysRow := ⟨some 9, some (9, none), "ISONE", some 50, true⟩

def zr1 : ZoneRow := ⟨some 0, some (0, none), some "4004", some "CT", some 7⟩

def zr2 : ZoneRow := ⟨some 5, some (5, none), some "4006", some "SEMA", some 20⟩

/-- Partition store after one system `write_history` call with batch `[cr1]`. -/
def c1store1 : Option Int → List SysRow :=
  (writeHistory sysKey SysRow.ts_utc (fun _ => []) [cr1]).1

/-- A fast-path entry that carries an explicit non-system location. -/
def c8entry : JObj :=
  .cons "BeginDate" (.timestr "2024-01-01 00:05:00" 5 none)
    (.cons "LoadMw" (.num 100) (.cons "Location" (.str "VT") .nil))

def c8obj : JObj := .cons "FiveMinSystemLoad" (.arr (.acons (.obj c8entry) .anil)) .nil

def c8payload : JVal := .obj c8obj

/-- `c8payload` wrapped one level deeper in a list. -/
def c8wrapped : JVal := .arr (.acons c8payload .anil)

def c8rowFast : SysRow := ⟨some 5, some (5, none), "ISONE", some 100, true⟩

def c8rowWalk : SysRow := ⟨some 5, some (5, none), "VT", some 100, false⟩

/-- An entry without any location key. -/
def c8noLoc : JObj := .cons "BeginDate" (.timestr "t" 5 none) (.cons "LoadMw" (.num 3) .nil)

/-- A zonal node whose zone-id field is a non-numeric string and which has no
zone name. -/
def c5dict : JObj :=
  .cons "interval_begin_date" (.timestr "2024-01-01 00:00:00" 0 none)
    (.cons "estimated_load_mw" (.num 100) (.cons "load_zone_id" (.str "XYZ") .nil))

def c5payload : JVal := .obj c5dict

def c5row : ZoneRow := ⟨some 0, some (0, none), none, none, some 100⟩

/-- Zonal node with id "4004" and no name. -/
def c7idDict : JObj :=
  .cons "interval_begin_date" (.timestr "t" 0 none)
    (.cons "estimated_load_mw" (.num 7) (.cons "load_zone_id" (.str "4004") .nil))

/-- Zonal node with name "SEMA" and no id. -/
def c7nmDict : JObj :=
  .cons "interval_begin_date" (.timestr "t" 0 none)
    (.cons "estimated_load_mw" (.num 7) (.cons "load_zone_name" (.str "SEMA") .nil))

/-- System payload with a timezone-aware time value (wall 500, offset +60). -/
def c9payload : JVal :=
  .obj (.cons "BeginDate" (.timestr "taware" 500 (some 60)) (.cons "LoadMw" (.num 1) .nil))

def c9row : SysRow := ⟨some 440, some (500, some 60), "ISONE", some 1, true⟩

def cGarbage : JVal := .str "garbage"

/-! ## Generic lemmas: de-duplication -/

theorem mem_dedupKeys [DecidableEq κ] (key : α → κ) :
    ∀ (seen : List κ) (l : List α) (x : α), x ∈ dedupKeys key seen l → x ∈ l ∧ key x ∉ seen
  | seen, [], x, h => by simp [dedupKeys] at h
  | seen, y :: ys, x, h => by
    by_cases hy : key y ∈ seen
    · simp only [dedupKeys, if_pos hy] at h
      have hrec := mem_dedupKeys key seen ys x h
      exact ⟨List.mem_cons_of_mem _ hrec.1, hrec.2⟩
    · simp only [dedupKeys, if_neg hy] at h
      rcases List.mem_cons.1 h with rfl | h2
      · exact ⟨List.mem_cons_self _ _, hy⟩
      · have hrec := mem_dedupKeys key (key y :: seen) ys x h2
        exact ⟨List.mem_cons_of_mem _ hrec.1,
               fun hs => hrec.2 (List.mem_cons_of_mem _ hs)⟩

theorem dedupKeys_map_nodup [DecidableEq κ] (key : α → κ) :
    ∀ (seen : List κ) (l : List α), ((dedupKeys key seen l).map key).Nodup
  | seen, [] => by simp [dedupKeys]
  | seen, y :: ys => by
    by_cases hy : key y ∈ seen
    · simp only [dedupKeys, if_pos hy]
      exact dedupKeys_map_nodup key seen ys
    · simp only [dedupKeys, if_neg hy, List.map_cons, List.nodup_cons]
      refine ⟨?_, dedupKeys_map_nodup key (key y :: seen) ys⟩
      intro hmem
      rcases List.mem_map.1 hmem with ⟨x, hx, hk⟩
      apply (mem_dedupKeys key _ _ _ hx).2
      rw [hk]
      exact List.mem_cons_self _ _

theorem key_mem_dedupKeys [DecidableEq κ] (key : α → κ) :
    ∀ (seen : List κ) (l : List α) (x : α), x ∈ l →
      key x ∈ seen ∨ key x ∈ (dedupKeys key seen l).map key
  | _, [], x, h => absurd h (List.not_mem_nil x)
  | seen, y :: ys, x, h => by
    by_cases hy : key y ∈ seen
    · simp only [dedupKeys, if_pos hy]
      rcases List.mem_cons.1 h with rfl | h2
      · exact Or.inl hy
      · exact key_mem_dedupKeys key seen ys x h2
    · simp only [dedupKeys, if_neg hy, List.map_cons]
      rcases List.mem_cons.1 h with rfl | h2
      · exact Or.inr (List.mem_cons_self _ _)
      · rcases key_mem_dedupKeys key (key y :: seen) ys x h2 with h3 | h3
        · rcases List.mem_cons.1 h3 with he | hs
          · exact Or.inr (by rw [he]; exact List.mem_cons_self _ _)
          · exact Or.inl hs
        · exact Or.inr (List.mem_cons_of_mem _ h3)

theorem dedupKeys_eq_nil [DecidableEq κ] (key : α → κ) :
    ∀ (seen : List κ) (l : List α), (∀ x ∈ l, key x ∈ seen) → dedupKeys key seen l = []
  | _, [], _ => rfl
  | seen, y :: ys, h => by
    have hy := h y (List.mem_cons_self _ _)
    simp only [dedupKeys, if_pos hy]
    exact dedupKeys_eq_nil key seen ys (fun x hx => h x (List.mem_cons_of_mem _ hx))

theorem dedupKeys_append [DecidableEq κ] (key : α → κ) :
    ∀ (s : List α) (seen : List κ) (B : List α), (s.map key).Nodup →
      (∀ x ∈ s, key x ∉ seen) →
      dedupKeys key seen (s ++ B) = s ++ dedupKeys key ((s.map key).reverse ++ seen) B
  | [], seen, B, _, _ => by simp
  | y :: s, seen, B, hnd, hni => by
    have hy : key y ∉ seen := hni y (List.mem_cons_self _ _)
    have hnd0 : (key y :: s.map key).Nodup := by simpa using hnd
    have hnd' : (s.map key).Nodup := (List.nodup_cons.1 hnd0).2
    have hyni : key y ∉ s.map key := (List.nodup_cons.1 hnd0).1
    have hni' : ∀ x ∈ s, key x ∉ key y :: seen := by
      intro x hx
      intro hmem
      rcases List.mem_cons.1 hmem with he | hs
      · exact hyni (he ▸ List.mem_map_of_mem key hx)
      · exact hni x (List.mem_cons_of_mem _ hx) hs
    simp only [List.cons_append, dedupKeys, if_neg hy, List.append_eq]
    rw [dedupKeys_append key s (key y :: seen) B hnd' hni']
    simp [List.append_assoc]

theorem dedupKeys_eq_self [DecidableEq κ] (key : α → κ) (l : List α) (seen : List κ)
    (hnd : (l.map key).Nodup) (hni : ∀ x ∈ l, key x ∉ seen) : dedupKeys key seen l = l := by
  have h := dedupKeys_append key l seen [] hnd hni
  simpa [dedupKeys] using h

/-! ## Generic lemmas: stable sorting -/

theorem insertLe_perm (le : α → α → Bool) (x : α) :
    ∀ (l : List α), List.Perm (insertLe le x l) (x :: l)
  | [] => List.Perm.refl _
  | y :: ys => by
    by_cases h : le x y
    · simp [insertLe, h]
    · simp only [insertLe, if_neg h]
      exact ((insertLe_perm le x ys).cons y).trans (List.Perm.swap x y ys)

theorem sortLe_perm (le : α → α → Bool) : ∀ (l : List α), List.Perm (sortLe le l) l
  | [] => List.Perm.refl _
  | x :: xs => (insertLe_perm le x (sortLe le xs)).trans ((sortLe_perm le xs).cons x)

theorem insertLe_pairwise (le : α → α → Bool)
    (htot : ∀ a b, le a b = true ∨ le b a = true)
    (htr : ∀ a b c, le a b = true → le b c = true → le a c = true) (x : α) :
    ∀ (l : List α), List.Pairwise (fun a b => le a b = true) l →
      List.Pairwise (fun a b => le a b = true) (insertLe le x l)
  | [], _ => by simp [insertLe]
  | y :: ys, hp => by
    rcases List.pairwise_cons.1 hp with ⟨hy, hys⟩
    by_cases h : le x y
    · simp only [insertLe, if_pos h]
      refine List.pairwise_cons.2 ⟨?_, hp⟩
      intro z hz
      rcases List.mem_cons.1 hz with rfl | hz2
      · exact h
      · exact htr x y z h (hy z hz2)
    · simp only [insertLe, if_neg h]
      refine List.pairwise_cons.2 ⟨?_, insertLe_pairwise le htot htr x ys hys⟩
      intro z hz
      rcases List.mem_cons.1 ((insertLe_perm le x ys).mem_iff.1 hz) with rfl | hz4
      · rcases htot z y with h1 | h1
        · exact absurd h1 h
        · exact h1
      · exact hy z hz4

theorem sortLe_pairwise (le : α → α → Bool)
    (htot : ∀ a b, le a b = true ∨ le b a = true)
    (htr : ∀ a b c, le a b = true → le b c = true → le a c = true) :
    ∀ (l : List α), List.Pairwise (fun a b => le a b = true) (sortLe le l)
  | [] => by simp [sortLe]
  | x :: xs => insertLe_pairwise le htot htr x _ (sortLe_pairwise le htot htr xs)

theorem sortLe_eq_of_pairwise (le : α → α → Bool) :
    ∀ (l : List α), List.Pairwise (fun a b => le a b = true) l → sortLe le l = l
  | [], _ => rfl
  | x :: xs, hp => by
    rcases List.pairwise_cons.1 hp with ⟨hx, hxs⟩
    simp only [sortLe, sortLe_eq_of_pairwise le xs hxs]
    cases xs with
    | nil => rfl
    | cons y ys => simp [insertLe, hx y (List.mem_cons_self _ _)]

theorem leOptInt_total : ∀ a b : Option Int, leOptInt a b = true ∨ leOptInt b a = true
  | none, none => Or.inl rfl
  | none, some _ => Or.inr rfl
  | some _, none => Or.inl rfl
  | some a, some b => by simpa [leOptInt] using Int.le_total a b

theorem leOptInt_trans :
    ∀ a b c : Option Int, leOptInt a b = true → leOptInt b c = true → leOptInt a c = true
  | none, none, none, _, _ => rfl
  | none, none, some c, _, h2 => by simp [leOptInt] at h2
  | none, some _, _, h1, _ => by simp [leOptInt] at h1
  | some _, _, none, _, _ => rfl
  | some _, none, some _, _, h2 => by simp [leOptInt] at h2
  | some a, some b, some c, h1, h2 => by
    simp only [leOptInt, decide_eq_true_eq] at h1 h2 ⊢
    omega

/-! ## Lemmas about `_append_idempotent` -/

theorem appendIdem_fst (key : α → κ) [DecidableEq κ] (ts : α → Option Int) (s b : List α) :
    (appendIdem key ts s b).1 =
      sortLe (fun x y => leOptInt (ts x) (ts y)) (dedupKeys key [] (s ++ b)) := rfl

theorem appendIdem_perm (key : α → κ) [DecidableEq κ] (ts : α → Option Int) (s b : List α) :
    List.Perm (appendIdem key ts s b).1 (dedupKeys key [] (s ++ b)) :=
  sortLe_perm _ _

theorem appendIdem_map_nodup (key : α → κ) [DecidableEq κ] (ts : α → Option Int)
    (s b : List α) : (((appendIdem key ts s b).1).map key).Nodup :=
  ((appendIdem_perm key ts s b).map key).nodup_iff.2 (dedupKeys_map_nodup key [] (s ++ b))

theorem appendIdem_pairwise (key : α → κ) [DecidableEq κ] (ts : α → Option Int)
    (s b : List α) :
    List.Pairwise (fun x y => leOptInt (ts x) (ts y) = true) (appendIdem key ts s b).1 :=
  sortLe_pairwise _ (fun x y => leOptInt_total (ts x) (ts y))
    (fun x y z => leOptInt_trans (ts x) (ts y) (ts z)) _

theorem appendIdem_idem (key : α → κ) [DecidableEq κ] (ts : α → Option Int) (s b : List α) :
    appendIdem key ts (appendIdem key ts s b).1 b = ((appendIdem key ts s b).1, 0) := by
  have hnd1 : (((appendIdem key ts s b).1).map key).Nodup := appendIdem_map_nodup key ts s b
  have hcov : ∀ x ∈ b, key x ∈ ((appendIdem key ts s b).1).map key := by
    intro x hx
    rcases key_mem_dedupKeys key [] (s ++ b) x (List.mem_append_right s hx) with h1 | h1
    · exact absurd h1 (List.not_mem_nil _)
    · exact (((appendIdem_perm key ts s b).map key).mem_iff).2 h1
  have hsplit : dedupKeys key [] ((appendIdem key ts s b).1 ++ b)
      = (appendIdem key ts s b).1 ++
        dedupKeys key ((((appendIdem key ts s b).1).map key).reverse ++ []) b :=
    dedupKeys_append key _ [] b hnd1 (by simp)
  have hnil : dedupKeys key ((((appendIdem key ts s b).1).map key).reverse ++ []) b = [] := by
    apply dedupKeys_eq_nil
    intro x hx
    simp only [List.append_nil, List.mem_reverse]
    exact hcov x hx
  have hdd : dedupKeys key [] ((appendIdem key ts s b).1 ++ b) = (appendIdem key ts s b).1 := by
    rw [hsplit, hnil, List.append_nil]
  show (sortLe _ (dedupKeys key [] ((appendIdem key ts s b).1 ++ b)),
        ((dedupKeys key [] ((appendIdem key ts s b).1 ++ b)).length : Int)
          - (((appendIdem key ts s b).1).length : Int)) = _
  rw [hdd, sortLe_eq_of_pairwise _ _ (appendIdem_pairwise key ts s b)]
  simp

/-! ## Lemmas about `write_history_*` -/

theorem writeHistoryGo_fst (key : α → κ) [DecidableEq κ] (ts : α → Option Int) (df : List α) :
    ∀ (ds : List (Option Int)) (store : Option Int → List α), ds.Nodup → ∀ d,
      (writeHistoryGo key ts df ds store).1 d =
        if d ∈ ds then (appendIdem key ts (store d) (dayRows ts df d)).1 else store d
  | [], store, _, d => by simp [writeHistoryGo]
  | d0 :: ds, store, hnd, d => by
    rcases List.nodup_cons.1 hnd with ⟨h0, hnd'⟩
    simp only [writeHistoryGo]
    rw [writeHistoryGo_fst key ts df ds _ hnd' d]
    by_cases hd : d = d0
    · subst hd
      simp [if_neg h0, List.mem_cons]
    · by_cases hds : d ∈ ds
      · simp [hds, hd, List.mem_cons]
      · simp [hds, hd, List.mem_cons]

theorem writeHistoryGo_zero (key : α → κ) [DecidableEq κ] (ts : α → Option Int) (df : List α) :
    ∀ (ds : List (Option Int)) (store : Option Int → List α),
      (∀ d ∈ ds, appendIdem key ts (store d) (dayRows ts df d) = (store d, 0)) →
      (∀ d, (writeHistoryGo key ts df ds store).1 d = store d) ∧
      (∀ p ∈ (writeHistoryGo key ts df ds store).2, p.2 = 0)
  | [], store, _ => by simp [writeHistoryGo]
  | d0 :: ds, store, h => by
    have h0 := h d0 (List.mem_cons_self _ _)
    have hpt : ∀ d', (fun d' => if d' = d0
        then (appendIdem key ts (store d0) (dayRows ts df d0)).1
        else store d') d' = store d' := by
      intro d'
      by_cases hd : d' = d0
      · subst hd; simp [h0]
      · simp [hd]
    have hrec := writeHistoryGo_zero key ts df ds
      (fun d' => if d' = d0 then (appendIdem key ts (store d0) (dayRows ts df d0)).1 else store d')
      (by intro d hd; rw [hpt d]; exact h d (List.mem_cons_of_mem _ hd))
    constructor
    · intro d
      simp only [writeHistoryGo]
      rw [hrec.1 d, hpt d]
    · intro p hp
      simp only [writeHistoryGo] at hp
      rcases List.mem_cons.1 hp with rfl | hp2
      · simp [h0]
      · exact hrec.2 p hp2

theorem datesOf_nodup (ts : α → Option Int) (df : List α) : (datesOf ts df).Nodup := by
  have h := dedupKeys_map_nodup (fun d : Option Int => d) [] (df.map (fun r => dateOfTs (ts r)))
  simpa [datesOf] using h

theorem writeHistory_idem (key : α → κ) [DecidableEq κ] (ts : α → Option Int)
    (store : Option Int → List α) (B : List α) :
    (∀ d, (writeHistory key ts (writeHistory key ts store B).1 B).1 d
            = (writeHistory key ts store B).1 d) ∧
    (∀ p ∈ (writeHistory key ts (writeHistory key ts store B).1 B).2, p.2 = 0) := by
  have hone : ∀ d ∈ datesOf ts B,
      (writeHistory key ts store B).1 d = (appendIdem key ts (store d) (dayRows ts B d)).1 := by
    intro d hd
    have h := writeHistoryGo_fst key ts B (datesOf ts B) store (datesOf_nodup ts B) d
    simpa [writeHistory, hd] using h
  have hzero : ∀ d ∈ datesOf ts B,
      appendIdem key ts ((writeHistory key ts store B).1 d) (dayRows ts B d)
        = ((writeHistory key ts store B).1 d, 0) := by
    intro d hd
    rw [hone d hd]
    exact appendIdem_idem key ts (store d) (dayRows ts B d)
  exact writeHistoryGo_zero key ts B (datesOf ts B) (writeHistory key ts store B).1 hzero

theorem appendIdem_old_row_wins (key : α → κ) [DecidableEq κ] (ts : α → Option Int)
    (s B : List α) (rOld rNew : α) (hnd : (s.map key).Nodup) (hOld : rOld ∈ s)
    (hk : key rNew = key rOld) (hNew : rNew ∉ s) :
    rOld ∈ (appendIdem key ts s B).1 ∧ rNew ∉ (appendIdem key ts s B).1 := by
  have hsplit : dedupKeys key [] (s ++ B) = s ++ dedupKeys key ((s.map key).reverse ++ []) B :=
    dedupKeys_append key s [] B hnd (by simp)
  have hperm := appendIdem_perm key ts s B
  constructor
  · apply hperm.mem_iff.2
    rw [hsplit]
    exact List.mem_append_left _ hOld
  · intro hmem
    have h2 := hperm.mem_iff.1 hmem
    rw [hsplit] at h2
    rcases List.mem_append.1 h2 with h3 | h3
    · exact hNew h3
    · apply (mem_dedupKeys key _ _ _ h3).2
      simp only [List.append_nil, List.mem_reverse]
      rw [hk]
      exact List.mem_map_of_mem key hOld

theorem appendIdem_merge (key : α → κ) [DecidableEq κ] (ts : α → Option Int)
    (B1 B2 : List α) (h : ((B1 ++ B2).map key).Nodup) :
    List.Perm (appendIdem key ts (appendIdem key ts [] B1).1 B2).1 (B1 ++ B2) ∧
    List.Pairwise (fun x y => leOptInt (ts x) (ts y) = true)
      (appendIdem key ts (appendIdem key ts [] B1).1 B2).1 := by
  have hmap : (B1 ++ B2).map key = B1.map key ++ B2.map key := List.map_append key B1 B2
  have hnd1 : (B1.map key).Nodup := by
    rw [hmap] at h
    exact h.of_append_left
  have hdd1 : dedupKeys key [] ([] ++ B1) = B1 := by
    simpa using dedupKeys_eq_self key B1 [] hnd1 (by simp)
  have hs1perm : List.Perm (appendIdem key ts [] B1).1 B1 := by
    have hp := appendIdem_perm key ts [] B1
    rwa [hdd1] at hp
  have happ : List.Perm ((appendIdem key ts [] B1).1 ++ B2) (B1 ++ B2) :=
    hs1perm.append_right B2
  have hnd2 : (((appendIdem key ts [] B1).1 ++ B2).map key).Nodup :=
    ((happ.map key).nodup_iff).2 h
  have hdd2 : dedupKeys key [] ((appendIdem key ts [] B1).1 ++ B2)
      = (appendIdem key ts [] B1).1 ++ B2 :=
    dedupKeys_eq_self key _ [] hnd2 (by simp)
  constructor
  · have hp := appendIdem_perm key ts (appendIdem key ts [] B1).1 B2
    rw [hdd2] at hp
    exact hp.trans happ
  · exact appendIdem_pairwise key ts _ B2

theorem applyBatches_inv (key : α → κ) [DecidableEq κ] (ts : α → Option Int) :
    ∀ (bs : List (List α)) (s : List α),
      ((s.map key).Nodup ∧ List.Pairwise (fun x y => leOptInt (ts x) (ts y) = true) s) →
      (((applyBatches key ts s bs).map key).Nodup ∧
       List.Pairwise (fun x y => leOptInt (ts x) (ts y) = true) (applyBatches key ts s bs))
  | [], _, hs => hs
  | b :: bs, s, _ => applyBatches_inv key ts bs (appendIdem key ts s b).1
      ⟨appendIdem_map_nodup key ts s b, appendIdem_pairwise key ts s b⟩

/-! ## Claims -/

/-- C1: appending the same batch twice is idempotent.  For every partition
store and batch `B`, running `write_history_system` / `write_history_zonal`
(each a per-UTC-date loop over `_append_idempotent`) with `B` and then again
with `B` leaves every partition unchanged, and the second call reports 0 rows
added for every date. -/
theorem claim_C1_append_batch_idempotent :
    (∀ (store : Option Int → List SysRow) (B : List SysRow),
       (∀ d, (writeHistory sysKey SysRow.ts_utc
                (writeHistory sysKey SysRow.ts_utc store B).1 B).1 d
              = (writeHistory sysKey SysRow.ts_utc store B).1 d) ∧
       (∀ p ∈ (writeHistory sysKey SysRow.ts_utc
                (writeHistory sysKey SysRow.ts_utc store B).1 B).2, p.2 = 0)) ∧
    (∀ (store : Option Int → List ZoneRow) (B : List ZoneRow),
       (∀ d, (writeHistory zoneKey ZoneRow.ts_utc
                (writeHistory zoneKey ZoneRow.ts_utc store B).1 B).1 d
              = (writeHistory zoneKey ZoneRow.ts_utc store B).1 d) ∧
       (∀ p ∈ (writeHistory zoneKey ZoneRow.ts_utc
                (writeHistory zoneKey ZoneRow.ts_utc store B).1 B).2, p.2 = 0)) :=
  ⟨fun store B => writeHistory_idem sysKey SysRow.ts_utc store B,
   fun store B => writeHistory_idem zoneKey ZoneRow.ts_utc store B⟩

/-- Witness for C1 at a concrete store and batch. -/
theorem claim_C1_witness :
    ((writeHistory sysKey SysRow.ts_utc c1store1 [cr1]).1 (some 0) = c1store1 (some 0)) ∧
    (((some 0, 0) : Option Int × Int) ∈ (writeHistory sysKey SysRow.ts_utc c1store1 [cr1]).2) ∧
    (((some 0, 0) : Option Int × Int).2 = 0) :=
  ⟨(claim_C1_append_batch_idempotent.1 (fun _ => []) [cr1]).1 (some 0),
   by decide,
   (claim_C1_append_batch_idempotent.1 (fun _ => []) [cr1]).2 (some 0, 0) (by decide)⟩

/-- C2 as stated is false: on an exact identity-key collision the OLD row is
kept (`drop_duplicates` defaults to `keep="first"` and the existing rows come
first in the concatenation).  At this concrete input the new row `cr2`
collides with the stored row `cr1` and the partition keeps `cr1`. -/
theorem claim_C2_counterexample :
    sysKey cr2 = sysKey cr1 ∧ cr2 ≠ cr1 ∧
    (appendIdem sysKey SysRow.ts_utc [cr1] [cr2]).1 = [cr1] ∧
    cr2 ∉ (appendIdem sysKey SysRow.ts_utc [cr1] [cr2]).1 :=
  ⟨rfl, by decide, rfl, by decide⟩

/-- C2 amended: on an exact identity-key collision during append the EXISTING
row wins (first-write-wins): the old row is still present afterwards and the
colliding new row is not, for both datasets. -/
theorem claim_C2_first_write_wins :
    (∀ (s B : List SysRow) (rOld rNew : SysRow), (s.map sysKey).Nodup → rOld ∈ s →
       sysKey rNew = sysKey rOld → rNew ∉ s →
       rOld ∈ (appendIdem sysKey SysRow.ts_utc s B).1 ∧
       rNew ∉ (appendIdem sysKey SysRow.ts_utc s B).1) ∧
    (∀ (s B : List ZoneRow) (rOld rNew : ZoneRow), (s.map zoneKey).Nodup → rOld ∈ s →
       zoneKey rNew = zoneKey rOld → rNew ∉ s →
       rOld ∈ (appendIdem zoneKey ZoneRow.ts_utc s B).1 ∧
       rNew ∉ (appendIdem zoneKey ZoneRow.ts_utc s B).1) :=
  ⟨fun s B rOld rNew => appendIdem_old_row_wins sysKey SysRow.ts_utc s B rOld rNew,
   fun s B rOld rNew => appendIdem_old_row_wins zoneKey ZoneRow.ts_utc s B rOld rNew⟩

/-- Witness for the amended C2 at a concrete collision. -/
theorem claim_C2_witness :
    cr1 ∈ (appendIdem sysKey SysRow.ts_utc [cr1] [cr2]).1 ∧
    cr2 ∉ (appendIdem sysKey SysRow.ts_utc [cr1] [cr2]).1 :=
  claim_C2_first_write_wins.1 [cr1] [cr2] cr1 cr2 (by decide) (by decide) (by decide) (by decide)

/-- C3: merge completeness.  Appending `B1` then `B2` with pairwise-disjoint
identity keys to an initially absent partition yields exactly `B1 ∪ B2`,
sorted by `ts_utc` ascending, for both datasets. -/
theorem claim_C3_merge_completeness :
    (∀ (B1 B2 : List SysRow), ((B1 ++ B2).map sysKey).Nodup →
       List.Perm (appendIdem sysKey SysRow.ts_utc
           (appendIdem sysKey SysRow.ts_utc [] B1).1 B2).1 (B1 ++ B2) ∧
       List.Pairwise (fun x y => leOptInt x.ts_utc y.ts_utc = true)
         (appendIdem sysKey SysRow.ts_utc (appendIdem sysKey SysRow.ts_utc [] B1).1 B2).1) ∧
    (∀ (B1 B2 : List ZoneRow), ((B1 ++ B2).map zoneKey).Nodup →
       List.Perm (appendIdem zoneKey ZoneRow.ts_utc
           (appendIdem zoneKey ZoneRow.ts_utc [] B1).1 B2).1 (B1 ++ B2) ∧
       List.Pairwise (fun x y => leOptInt x.ts_utc y.ts_utc = true)
         (appendIdem zoneKey ZoneRow.ts_utc (appendIdem zoneKey ZoneRow.ts_utc [] B1).1 B2).1) :=
  ⟨fun B1 B2 => appendIdem_merge sysKey SysRow.ts_utc B1 B2,
   fun B1 B2 => appendIdem_merge zoneKey ZoneRow.ts_utc B1 B2⟩

/-- Witness for C3 at concrete disjoint batches. -/
theorem claim_C3_witness :
    List.Perm (appendIdem sysKey SysRow.ts_utc
        (appendIdem sysKey SysRow.ts_utc [] [cr1]).1 [cr3]).1 ([cr1] ++ [cr3]) ∧
    List.Pairwise (fun x y => leOptInt x.ts_utc y.ts_utc = true)
      (appendIdem sysKey SysRow.ts_utc (appendIdem sysKey SysRow.ts_utc [] [cr1]).1 [cr3]).1 :=
  claim_C3_merge_completeness.1 [cr1] [cr3] (by decide)

/-- C4: after any sequence of `_append_idempotent` calls starting from an
absent partition, no two stored rows share the dataset's identity key and the
rows are sorted by `ts_utc` ascending. -/
theorem claim_C4_partition_invariant :
    (∀ bs : List (List SysRow),
       ((applyBatches sysKey SysRow.ts_utc [] bs).map sysKey).Nodup ∧
       List.Pairwise (fun x y => leOptInt x.ts_utc y.ts_utc = true)
         (applyBatches sysKey SysRow.ts_utc [] bs)) ∧
    (∀ bs : List (List ZoneRow),
       ((applyBatches zoneKey ZoneRow.ts_utc [] bs).map zoneKey).Nodup ∧
       List.Pairwise (fun x y => leOptInt x.ts_utc y.ts_utc = true)
         (applyBatches zoneKey ZoneRow.ts_utc [] bs)) :=
  ⟨fun bs => applyBatches_inv sysKey SysRow.ts_utc bs [] ⟨by simp, by simp⟩,
   fun bs => applyBatches_inv zoneKey ZoneRow.ts_utc bs [] ⟨by simp, by simp⟩⟩

/-! ## Per-node lemmas for the normalizers -/

theorem zoneRecOfDict_fields (d : JObj) (r : ZoneRow) (h : zoneRecOfDict d = some r) :
    r.zone_id = (zoneIdName (first_key d zZoneIdKeys) (first_key d zZoneNmKeys)).1 ∧
    r.zone_name = (zoneIdName (first_key d zZoneIdKeys) (first_key d zZoneNmKeys)).2 ∧
    r.ts_utc = deriveUtc r.ts_local := by
  unfold zoneRecOfDict at h
  split at h
  · dsimp only at h
    split at h
    · cases h
      exact ⟨rfl, rfl, rfl⟩
    · exact absurd h (by simp)
  · exact absurd h (by simp)

theorem sysFastRec_fields (d : JObj) (r : SysRow) (h : sysFastRec d = some r) :
    r.location = "ISONE" ∧ r.is_system = true ∧ r.ts_utc = deriveUtc r.ts_local := by
  unfold sysFastRec at h
  split at h
  · cases h
    exact ⟨rfl, rfl, rfl⟩
  · exact absurd h (by simp)

theorem sysWalkRec_fields (d : JObj) (r : SysRow) (h : sysWalkRec d = some r) :
    r.ts_utc = deriveUtc r.ts_local := by
  unfold sysWalkRec at h
  split at h
  · cases h
    rfl
  · exact absurd h (by simp)

theorem zoneIdName_fst_of_id (zid znm : Option JVal) (i : String)
    (h : zidCoerce zid = some i) : (zoneIdName zid znm).1 = some i := by
  cases hz : znm.map clean_zone_name <;> simp [zoneIdName, h, hz]

theorem zoneIdName_of_id_only (zid : Option JVal) (i : String) (h : zidCoerce zid = some i) :
    zoneIdName zid none = (some i, zoneNameById i) := by
  simp [zoneIdName, h]

theorem zoneIdName_of_nm_only (z : JVal) :
    zoneIdName none (some z) =
      (revByName (upperStr (clean_zone_name z)), some (clean_zone_name z)) := rfl

theorem zoneIdName_snd_of_nm (zid : Option JVal) (z : JVal) :
    (zoneIdName zid (some z)).2 = some (clean_zone_name z) := by
  cases h : zidCoerce zid <;> simp [zoneIdName, h]

/-- C5 as stated is false: a node whose zone-id field holds a non-numeric
string and which has no recoverable zone name still contributes a record, and
that record has both `zone_id` and `zone_name` null even after the final
`fillna` tidy. -/
theorem claim_C5_counterexample :
    zonalNormalize c5payload = .ok [c5row] ∧ c5row.zone_id = none ∧ c5row.zone_name = none :=
  ⟨rfl, rfl, rfl⟩

/-- C5 amended: a record of the zonal walk has `zone_id` and `zone_name` not
both null whenever its node recovered a zone name, or its zone-id value
coerced to a digit string; only a node whose id is present but non-coercible
and whose name is absent yields a both-null record. -/
theorem claim_C5_amended : ∀ (d : JObj) (r : ZoneRow), zoneRecOfDict d = some r →
    (first_key d zZoneNmKeys ≠ none ∨ zidCoerce (first_key d zZoneIdKeys) ≠ none) →
    ¬((zoneTidy r).zone_id = none ∧ (zoneTidy r).zone_name = none) := by
  rintro d r h hcond ⟨h1, h2⟩
  obtain ⟨hid, hnm, -⟩ := zoneRecOfDict_fields d r h
  have htid : (zoneTidy r).zone_id = r.zone_id := rfl
  rcases hcond with hc | hc
  · rcases Option.ne_none_iff_exists'.1 hc with ⟨z, hz⟩
    rw [hz, zoneIdName_snd_of_nm] at hnm
    have : (zoneTidy r).zone_name = some (clean_zone_name z) := by
      simp [zoneTidy, hnm]
    rw [this] at h2
    exact Option.some_ne_none _ h2
  · rcases Option.ne_none_iff_exists'.1 hc with ⟨i, hi⟩
    rw [zoneIdName_fst_of_id _ _ i hi] at hid
    rw [htid, hid] at h1
    exact Option.some_ne_none _ h1

/-- Witness for the amended C5: the id-only node with id "4004" yields a
record that is not both-null. -/
theorem claim_C5_witness :
    ¬((zoneTidy zr1).zone_id = none ∧ (zoneTidy zr1).zone_name = none) :=
  claim_C5_amended c7idDict zr1 (by decide) (Or.inr (by decide))

/-- C7: static zone lookup backfill.  If only the zone id is recovered (a
digit string) and the id is in the table, the name is backfilled from the
id→name table; if only the name is recovered and its uppercase form is in the
reverse table, the id is backfilled from the name→id table. -/
theorem claim_C7_zone_backfill :
    (∀ (d : JObj) (r : ZoneRow) (i nm : String), zoneRecOfDict d = some r →
       zidCoerce (first_key d zZoneIdKeys) = some i → first_key d zZoneNmKeys = none →
       zoneNameById i = some nm → r.zone_id = some i ∧ r.zone_name = some nm) ∧
    (∀ (d : JObj) (r : ZoneRow) (z : JVal) (i : String), zoneRecOfDict d = some r →
       first_key d zZoneIdKeys = none → first_key d zZoneNmKeys = some z →
       revByName (upperStr (clean_zone_name z)) = some i →
       r.zone_id = some i ∧ r.zone_name = some (clean_zone_name z)) := by
  constructor
  · intro d r i nm h hid hnm htab
    obtain ⟨h1, h2, -⟩ := zoneRecOfDict_fields d r h
    rw [hnm, zoneIdName_of_id_only _ i hid] at h1 h2
    exact ⟨h1, by rw [h2, htab]⟩
  · intro d r z i h hid hnm hrev
    obtain ⟨h1, h2, -⟩ := zoneRecOfDict_fields d r h
    rw [hid, hnm, zoneIdName_of_nm_only z] at h1 h2
    exact ⟨by rw [h1, hrev], h2⟩

/-- Witness for C7 at the spec's concrete examples: id "4004" backfills name
"CT"; name "SEMA" backfills id "4006". -/
theorem claim_C7_witness :
    (zr1.zone_id = some "4004" ∧ zr1.zone_name = some "CT") ∧
    ((⟨some 0, some (0, none), some "4006", some "SEMA", some 7⟩ : ZoneRow).zone_id = some "4006" ∧
     (⟨some 0, some (0, none), some "4006", some "SEMA", some 7⟩ : ZoneRow).zone_name = some "SEMA") :=
  ⟨claim_C7_zone_backfill.1 c7idDict zr1 "4004" "CT" (by decide) rfl rfl rfl,
   claim_C7_zone_backfill.2 c7nmDict ⟨some 0, some (0, none), some "4006", some "SEMA", some 7⟩
     (.str "SEMA") "4006" rfl rfl rfl rfl⟩

/-- C6: zero-extraction failure.  If a normalizer extracts zero records it
returns an error carrying the original payload (the debug artifact) and never
returns an empty success, for both the zonal and the system normalizer. -/
theorem claim_C6_zero_extraction :
    (∀ p : JVal, zonalWalk p = [] → zonalNormalize p = .error p) ∧
    (∀ p : JVal, fastPath p = [] → sysWalk p = [] → sysNormalize p = .error p) ∧
    (∀ (p : JVal) (rows : List ZoneRow), zonalNormalize p = .ok rows → rows ≠ []) ∧
    (∀ (p : JVal) (rows : List SysRow), sysNormalize p = .ok rows → rows ≠ []) := by
  refine ⟨?_, ?_, ?_, ?_⟩
  · intro p h
    simp [zonalNormalize, h]
  · intro p h1 h2
    simp [sysNormalize, sysRows, h1, h2]
  · intro p rows h
    cases hw : zonalWalk p with
    | nil => simp [zonalNormalize, hw] at h
    | cons x xs =>
      simp only [zonalNormalize, hw, List.isEmpty_cons, Bool.false_eq_true, if_false,
        Except.ok.injEq] at h
      intro hnil
      have hlen := (sortLe_perm zLe ((x :: xs).map zoneTidy)).length_eq
      rw [h, hnil] at hlen
      simp at hlen
  · intro p rows h
    cases hw : sysRows p with
    | nil => simp [sysNormalize, hw] at h
    | cons x xs =>
      simp only [sysNormalize, hw, List.isEmpty_cons, Bool.false_eq_true, if_false,
        Except.ok.injEq] at h
      intro hnil
      have hlen := (sortLe_perm sysLe (x :: xs)).length_eq
      rw [h, hnil] at hlen
      simp at hlen

/-- Witness for C6 at a garbage payload. -/
theorem claim_C6_witness :
    zonalNormalize cGarbage = .error cGarbage ∧ sysNormalize cGarbage = .error cGarbage :=
  ⟨claim_C6_zero_extraction.1 cGarbage rfl, claim_C6_zero_extraction.2.1 cGarbage rfl rfl⟩

/-! ## Walk-traversal lemmas -/

theorem fastList_props : ∀ (a : JArr) (r : SysRow), r ∈ fastList a →
    r.location = "ISONE" ∧ r.is_system = true ∧ r.ts_utc = deriveUtc r.ts_local
  | .anil, r, h => absurd h (by simp [fastList])
  | .acons (.obj d) rest, r, h => by
    simp only [fastList] at h
    rcases List.mem_append.1 h with h1 | h2
    · exact sysFastRec_fields d r (by simpa using h1)
    · exact fastList_props rest r h2
  | .acons (.arr a) rest, r, h => fastList_props rest r (by simpa [fastList] using h)
  | .acons (.str s) rest, r, h => fastList_props rest r (by simpa [fastList] using h)
  | .acons (.timestr s w oo) rest, r, h => fastList_props rest r (by simpa [fastList] using h)
  | .acons (.num n) rest, r, h => fastList_props rest r (by simpa [fastList] using h)
  | .acons (.jbool b) rest, r, h => fastList_props rest r (by simpa [fastList] using h)
  | .acons .null rest, r, h => fastList_props rest r (by simpa [fastList] using h)

mutual
theorem sysWalk_ts : ∀ (v : JVal) (r : SysRow), r ∈ sysWalk v → r.ts_utc = deriveUtc r.ts_local
  | .obj o, r, h => by
    simp only [sysWalk] at h
    rcases List.mem_append.1 h with h1 | h2
    · exact sysWalkRec_fields o r (by simpa using h1)
    · exact sysWalkObj_ts o r h2
  | .arr a, r, h => sysWalkArr_ts a r (by simpa [sysWalk] using h)
  | .str s, r, h => absurd h (by simp [sysWalk])
  | .timestr s w oo, r, h => absurd h (by simp [sysWalk])
  | .num n, r, h => absurd h (by simp [sysWalk])
  | .jbool b, r, h => absurd h (by simp [sysWalk])
  | .null, r, h => absurd h (by simp [sysWalk])

theorem sysWalkObj_ts : ∀ (o : JObj) (r : SysRow), r ∈ sysWalkObj o → r.ts_utc = deriveUtc r.ts_local
  | .nil, r, h => absurd h (by simp [sysWalkObj])
  | .cons k v rest, r, h => by
    simp only [sysWalkObj] at h
    rcases List.mem_append.1 h with h1 | h2
    · exact sysWalk_ts v r h1
    · exact sysWalkObj_ts rest r h2

theorem sysWalkArr_ts : ∀ (a : JArr) (r : SysRow), r ∈ sysWalkArr a → r.ts_utc = deriveUtc r.ts_local
  | .anil, r, h => absurd h (by simp [sysWalkArr])
  | .acons v rest, r, h => by
    simp only [sysWalkArr] at h
    rcases List.mem_append.1 h with h1 | h2
    · exact sysWalk_ts v r h1
    · exact sysWalkArr_ts rest r h2
end

mutual
theorem zonalWalk_ts : ∀ (v : JVal) (r : ZoneRow), r ∈ zonalWalk v → r.ts_utc = deriveUtc r.ts_local
  | .obj o, r, h => by
    simp only [zonalWalk] at h
    rcases List.mem_append.1 h with h1 | h2
    · exact (zoneRecOfDict_fields o r (by simpa using h1)).2.2
    · exact zonalWalkObj_ts o r h2
  | .arr a, r, h => zonalWalkArr_ts a r (by simpa [zonalWalk] using h)
  | .str s, r, h => absurd h (by simp [zonalWalk])
  | .timestr s w oo, r, h => absurd h (by simp [zonalWalk])
  | .num n, r, h => absurd h (by simp [zonalWalk])
  | .jbool b, r, h => absurd h (by simp [zonalWalk])
  | .null, r, h => absurd h (by simp [zonalWalk])

theorem zonalWalkObj_ts : ∀ (o : JObj) (r : ZoneRow), r ∈ zonalWalkObj o → r.ts_utc = deriveUtc r.ts_local
  | .nil, r, h => absurd h (by simp [zonalWalkObj])
  | .cons k v rest, r, h => by
    simp only [zonalWalkObj] at h
    rcases List.mem_append.1 h with h1 | h2
    · exact zonalWalk_ts v r h1
    · exact zonalWalkObj_ts rest r h2

theorem zonalWalkArr_ts : ∀ (a : JArr) (r : ZoneRow), r ∈ zonalWalkArr a → r.ts_utc = deriveUtc r.ts_local
  | .anil, r, h => absurd h (by simp [zonalWalkArr])
  | .acons v rest, r, h => by
    simp only [zonalWalkArr] at h
    rcases List.mem_append.1 h with h1 | h2
    · exact zonalWalk_ts v r h1
    · exact zonalWalkArr_ts rest r h2
end

theorem fastPath_ts (p : JVal) (r : SysRow) (h : r ∈ fastPath p) :
    r.ts_utc = deriveUtc r.ts_local := by
  unfold fastPath at h
  split at h
  · split at h
    · exact (fastList_props _ r h).2.2
    · exact absurd h (by simp)
  · exact absurd h (by simp)

theorem sysRows_ts (p : JVal) (r : SysRow) (h : r ∈ sysRows p) :
    r.ts_utc = deriveUtc r.ts_local := by
  simp only [sysRows] at h
  by_cases hf : (fastPath p).isEmpty
  · rw [if_pos hf] at h
    exact sysWalk_ts p r h
  · rw [if_neg hf] at h
    exact fastPath_ts p r h

/-- C9: UTC derivation rule.  For every record either normalizer produces, if
the parsed time value is timezone-aware then `ts_utc` is that instant
converted to UTC (wall clock minus the explicit offset), and if it is naive
then `ts_utc` is the same wall-clock value with UTC attached directly (no
offset arithmetic). -/
theorem claim_C9_utc_derivation :
    (∀ (p : JVal) (r : SysRow), r ∈ sysRows p →
       (∀ w o, r.ts_local = some (w, some o) → r.ts_utc = some (w - o)) ∧
       (∀ w, r.ts_local = some (w, none) → r.ts_utc = some w)) ∧
    (∀ (p : JVal) (r : ZoneRow), r ∈ zonalWalk p →
       (∀ w o, r.ts_local = some (w, some o) → r.ts_utc = some (w - o)) ∧
       (∀ w, r.ts_local = some (w, none) → r.ts_utc = some w)) := by
  constructor
  · intro p r h
    have hd := sysRows_ts p r h
    constructor
    · intro w o hl
      rw [hd, hl]
      rfl
    · intro w hl
      rw [hd, hl]
      rfl
  · intro p r h
    have hd := zonalWalk_ts p r h
    constructor
    · intro w o hl
      rw [hd, hl]
      rfl
    · intro w hl
      rw [hd, hl]
      rfl

/-- Witness for C9: a timezone-aware time value (wall 500, offset +60) yields
`ts_utc` 440 = 500 - 60. -/
theorem claim_C9_witness : c9row.ts_utc = some (500 - 60) :=
  (claim_C9_utc_derivation.1 c9payload c9row (by decide)).1 500 60 rfl

/-- C10: on the fast path every record has location fixed to "ISONE" and
is_system fixed to true, regardless of any Location/Zone field in the list
entries. -/
theorem claim_C10_fast_path_location :
    ∀ (o : JObj) (entries : JArr), o.lookup "FiveMinSystemLoad" = some (.arr entries) →
      ∀ r ∈ fastPath (.obj o), r.location = "ISONE" ∧ r.is_system = true := by
  intro o entries hl r h
  simp only [fastPath, hl] at h
  exact ⟨(fastList_props entries r h).1, (fastList_props entries r h).2.1⟩

/-- Witness for C10 at an entry that carries Location "VT": the fast path
still forces "ISONE"/is_system. -/
theorem claim_C10_witness :
    c8rowFast.location = "ISONE" ∧ c8rowFast.is_system = true :=
  claim_C10_fast_path_location c8obj (.acons (.obj c8entry) .anil) rfl c8rowFast (by decide)

/-! ## Key-list disjointness and singleton-wrapper lemmas (C8) -/

theorem firstTruthyKey_singleton (k : String) (v : JVal) :
    ∀ (ks : List String) (x : JVal), firstTruthyKey (.cons k v .nil) ks = some x → k ∈ ks
  | [], x, h => by simp [firstTruthyKey] at h
  | k0 :: ks, x, h => by
    by_cases hk : k = k0
    · exact hk ▸ List.mem_cons_self _ _
    · have hl : JObj.lookup (.cons k v .nil) k0 = none := by simp [JObj.lookup, hk]
      simp only [firstTruthyKey, hl] at h
      exact List.mem_cons_of_mem _ (firstTruthyKey_singleton k v ks x h)

theorem firstNotNoneKey_singleton (k : String) (v : JVal) :
    ∀ (ks : List String) (x : JVal), firstNotNoneKey (.cons k v .nil) ks = some x → k ∈ ks
  | [], x, h => by simp [firstNotNoneKey] at h
  | k0 :: ks, x, h => by
    by_cases hk : k = k0
    · exact hk ▸ List.mem_cons_self _ _
    · have hl : JObj.lookup (.cons k v .nil) k0 = none := by simp [JObj.lookup, hk]
      simp only [firstNotNoneKey, hl] at h
      exact List.mem_cons_of_mem _ (firstNotNoneKey_singleton k v ks x h)

theorem sysTimeValue_disjoint (k : String) (h1 : k ∈ sysTimeKeys) (h2 : k ∈ sysValueKeys) :
    False := by
  fin_cases h1 <;> revert h2 <;> decide

theorem zTimeValue_disjoint (k : String) (h1 : k ∈ zTimeKeys) (h2 : k ∈ zValueKeys) :
    False := by
  fin_cases h1 <;> revert h2 <;> decide

theorem sysWalkRec_singleton (k : String) (v : JVal) : sysWalkRec (.cons k v .nil) = none := by
  unfold sysWalkRec
  cases ht : extract_time (.cons k v .nil) with
  | none => simp [ht]
  | some tv =>
    cases hv : extract_val (.cons k v .nil) with
    | none => simp [ht, hv]
    | some lv =>
      exact (sysTimeValue_disjoint k
        (firstTruthyKey_singleton k v sysTimeKeys tv ht)
        (firstNotNoneKey_singleton k v sysValueKeys lv hv)).elim

theorem zoneRecOfDict_singleton (k : String) (v : JVal) :
    zoneRecOfDict (.cons k v .nil) = none := by
  unfold zoneRecOfDict
  cases ht : first_key (.cons k v .nil) zTimeKeys with
  | none => simp [ht]
  | some tv =>
    cases hv : first_key (.cons k v .nil) zValueKeys with
    | none => simp [ht, hv]
    | some lv =>
      exact (zTimeValue_disjoint k
        (firstNotNoneKey_singleton k v zTimeKeys tv ht)
        (firstNotNoneKey_singleton k v zValueKeys lv hv)).elim

theorem fastRec_eq_walkRec (d : JObj) (h : extract_loc d = "ISONE") :
    sysFastRec d = sysWalkRec d := by
  unfold sysFastRec sysWalkRec
  cases ht : extract_time d with
  | none => rfl
  | some tv =>
    cases hv : extract_val d with
    | none => rfl
    | some lv =>
      simp only [h]
      rfl

/-- C8 as stated is false: the payload `c8payload` takes the fast path and its
entry's Location "VT" is ignored (record location "ISONE"), but wrapping the
same payload one level deeper in a list routes it through the recursive walk,
which consults the location field and yields a different record. -/
theorem claim_C8_counterexample :
    sysNormalize c8payload = .ok [c8rowFast] ∧
    sysNormalize c8wrapped = .ok [c8rowWalk] ∧
    c8rowFast ≠ c8rowWalk :=
  ⟨rfl, rfl, by decide⟩

/-- C8 amended: an extra singleton list or map wrapper is transparent to the
recursive walk of both normalizers (a singleton wrapper node never satisfies
the extraction condition because the time and value key lists are disjoint),
and the fast path agrees with the walk at an entry precisely when the walk's
extracted location is the system default "ISONE"; an entry carrying an
explicit non-system location makes the two differ, so wrapping a payload that
took the fast path can change the record set. -/
theorem claim_C8_amended :
    (∀ p : JVal, sysWalk (.arr (.acons p .anil)) = sysWalk p) ∧
    (∀ p : JVal, zonalWalk (.arr (.acons p .anil)) = zonalWalk p) ∧
    (∀ (k : String) (p : JVal), sysWalk (.obj (.cons k p .nil)) = sysWalk p) ∧
    (∀ (k : String) (p : JVal), zonalWalk (.obj (.cons k p .nil)) = zonalWalk p) ∧
    (∀ d : JObj, extract_loc d = "ISONE" → sysFastRec d = sysWalkRec d) := by
  refine ⟨?_, ?_, ?_, ?_, fastRec_eq_walkRec⟩
  · intro p
    simp [sysWalk, sysWalkArr]
  · intro p
    simp [zonalWalk, zonalWalkArr]
  · intro k p
    simp [sysWalk, sysWalkObj, sysWalkRec_singleton]
  · intro k p
    simp [zonalWalk, zonalWalkObj, zoneRecOfDict_singleton]

/-- Witness for the amended C8: at an entry with no location key the fast
path and the walk produce the same record. -/
theorem claim_C8_witness : sysFastRec c8noLoc = sysWalkRec c8noLoc :=
  claim_C8_amended.2.2.2.2 c8noLoc rfl
